import Mathlib

/-!
A shallow embedding of the `trace` package: a small in-process tracing
framework.  The package has two components:

* `T` (file `trace.go`), the dispatcher: it walks the registered listeners
  and invokes every listener whose priority threshold and subscribed path
  match the emitted message, formatting the message text at most once.
* `Callers` (second source file), the stack capturer: it walks the caller
  chain, skips everything up to the frame of `T` itself, and collects
  `"file:line"` strings until the runtime startup frame is reached.

Go strings are byte strings and the dispatcher indexes them by byte; paths
here are modelled as `List Char`, with `String.toList` used only to write
concrete ASCII examples.  Go's `int32` priorities are modelled as `Int`
together with the 32-bit range predicate where the range matters.
-/

namespace Trace

/-- `Priority` is the type used to denote message priorities (Go `int32`,
modelled as `Int`).  The higher the value, the more important. -/
abbrev Priority := Int

/-- `PrioCritical Priority = 2000` in `trace.go`. -/
def PrioCritical : Priority := 2000

/-- `PrioError Priority = 1000` in `trace.go`. -/
def PrioError : Priority := 1000

/-- `PrioInfo Priority = 0` in `trace.go`. -/
def PrioInfo : Priority := 0

/-- `PrioDebug Priority = -1000` in `trace.go`. -/
def PrioDebug : Priority := -1000

/-- `PrioVerbose Priority = -2000` in `trace.go`. -/
def PrioVerbose : Priority := -2000

/-- `math.MinInt32`, the least value of Go's `int32`. -/
def minInt32 : Int := -(2 ^ 31)

/-- `PrioAll Priority = math.MinInt32` in `trace.go`. -/
def PrioAll : Priority := minInt32

/-- The values representable in Go's `int32`, the underlying type of
`Priority`. -/
def isInt32 (p : Int) : Prop := minInt32 ≤ p ∧ p < 2 ^ 31

instance (p : Int) : Decidable (isInt32 p) := by
  unfold isInt32
  infer_instance

/-- One registered listener, as stored in the global `listeners`
collection: the subscribed path, the minimal priority, and the callback
(represented by an identifier, since callbacks are opaque to the
dispatcher). -/
structure Entry where
  path : List Char
  prio : Priority
  listener : Nat
deriving DecidableEq, Repr

/-- The boundary test of `T`:
`if l := len(c.path); l > 0 && len(path) > l && path[l] != '/' { continue }`.
Go's `&&` short-circuits, so `path[l]` is read only under the guard
`len(path) > l`; the read is modelled by `path[l]?`, with `none` standing
for an out-of-bounds fault.  The result is `some true` when the entry must
be skipped. -/
def entrySkip (path cpath : List Char) : Option Bool :=
  if 0 < cpath.length then
    if cpath.length < path.length then
      (path[cpath.length]?).map (fun ch => decide (ch ≠ '/'))
    else some false
  else some false

/-- The complete per-entry test of the dispatcher loop in `T`: the entry is
invoked iff `prio >= c.prio && strings.HasPrefix(path, c.path)` holds and
the boundary test does not fire.  (Go's `strings.HasPrefix(s, p)` is
`List.isPrefixOf p s` on the bytes.) -/
def tMatch (path : List Char) (prio : Priority) (c : Entry) : Bool :=
  decide (c.prio ≤ prio) && c.path.isPrefixOf path
    && !(entrySkip path c.path).getD true

/-- The `for _, c := range listeners` loop of `T`.  The `Bool` argument is
the `first` flag; the result collects the entries whose callbacks are
invoked, in loop order, together with the number of times
`fmt.Sprintf(format, args...)` is evaluated. -/
def emitLoop (path : List Char) (prio : Priority) :
    List Entry → Bool → List Entry × Nat
  | [], _ => ([], 0)
  | c :: cs, first =>
    if tMatch path prio c then
      let r := emitLoop path prio cs false
      (c :: r.1, (if first then 1 else 0) + r.2)
    else
      emitLoop path prio cs first

/-- The dispatcher `T(path, prio, format, args...)` of `trace.go`, with the
global `listeners` slice passed explicitly.  It returns the sequence of
invoked entries (in invocation order) and the number of times the message
was formatted.  The `len(listeners) == 0` early return is kept from the
source. -/
def T (ls : List Entry) (path : List Char) (prio : Priority) :
    List Entry × Nat :=
  if ls.isEmpty then ([], 0) else emitLoop path prio ls true

/-- The matching condition as the specification words it: the entry is
invoked iff `priority >= entry.minPriority` and (`path` equals the
subscribed path, or `path` starts with the subscribed path followed by
`'/'`). -/
def specMatches (path : List Char) (prio : Priority) (c : Entry) : Bool :=
  decide (c.prio ≤ prio)
    && (path == c.path || (c.path ++ ['/']).isPrefixOf path)

/-- One frame of the walked caller chain, as reported by
`runtime.Caller`: a source file name and a line number. -/
structure Frame where
  file : List Char
  line : Int
deriving DecidableEq, Repr

/-- The source-location suffix identifying the frame of `T` itself. -/
def traceFileSuffix : List Char := "github.com/seehuhn/trace/trace.go".toList

/-- The source-location suffix identifying the runtime startup frame. -/
def procFileSuffix : List Char := "src/pkg/runtime/proc.c".toList

/-- `fmt.Sprintf("%s:%d", file, line)`. -/
def frameStr (f : Frame) : List Char := f.file ++ ':' :: (toString f.line).toList

/-- The `for i := 2; ; i++` loop of `Callers`.  The list argument is the
caller chain from depth 2 outward (`runtime.Caller(i)` for `i = 2, 3, …`;
the end of the list is `ok == false`), and the `Bool` argument is the
`callToTSeen` flag. -/
def callersLoop : List Frame → Bool → List (List Char)
  | [], _ => []
  | f :: rest, seen =>
    if !seen then
      if traceFileSuffix.isSuffixOf f.file then callersLoop rest true
      else callersLoop rest false
    else if procFileSuffix.isSuffixOf f.file then []
    else frameStr f :: callersLoop rest true

/-- `Callers()` of the second source file: walk the caller chain (given
here explicitly, from depth 2 outward), discard frames until the frame of
`trace.go` is seen, then collect `"file:line"` strings until the runtime
startup frame or the end of the stack. -/
def Callers (stack : List Frame) : List (List Char) :=
  callersLoop stack false


lemma emitLoop_fst (path : List Char) (prio : Priority) (ls : List Entry)
    (first : Bool) :
    (emitLoop path prio ls first).1 = List.filter (tMatch path prio) ls := by
  induction ls generalizing first with
  | nil => rfl
  | cons c cs ih =>
    unfold emitLoop
    cases h : tMatch path prio c
    · simp [h, ih first]
    · simp [h, ih false]

lemma emitLoop_snd_false (path : List Char) (prio : Priority)
    (ls : List Entry) : (emitLoop path prio ls false).2 = 0 := by
  induction ls with
  | nil => rfl
  | cons c cs ih =>
    unfold emitLoop
    cases h : tMatch path prio c
    · simp [h, ih]
    · simp [h, ih]

lemma emitLoop_snd_true (path : List Char) (prio : Priority)
    (ls : List Entry) :
    (emitLoop path prio ls true).2 =
      if (emitLoop path prio ls true).1.isEmpty then 0 else 1 := by
  induction ls with
  | nil => rfl
  | cons c cs ih =>
    unfold emitLoop
    cases h : tMatch path prio c
    · simp [h, ih]
    · simp [h, emitLoop_snd_false]

lemma T_fst (ls : List Entry) (path : List Char) (prio : Priority) :
    (T ls path prio).1 = List.filter (tMatch path prio) ls := by
  cases ls with
  | nil => rfl
  | cons c cs => exact emitLoop_fst path prio (c :: cs) true


lemma tMatch_eq_specMatches (path : List Char) (prio : Priority) (c : Entry)
    (h : c.path ≠ []) : tMatch path prio c = specMatches path prio c := by
  unfold tMatch specMatches
  cases hp : c.path.isPrefixOf path with
  | false =>
    have h1 : (path == c.path) = false := by
      cases hq : path == c.path
      · rfl
      · rw [beq_iff_eq] at hq
        subst hq
        rw [List.isPrefixOf_iff_prefix.mpr (List.prefix_refl _)] at hp
        simp at hp
    have h2 : (c.path ++ ['/']).isPrefixOf path = false := by
      cases hq : (c.path ++ ['/']).isPrefixOf path
      · rfl
      · rw [List.isPrefixOf_iff_prefix] at hq
        have hc : c.path <+: path := (List.prefix_append c.path ['/']).trans hq
        rw [List.isPrefixOf_iff_prefix.mpr hc] at hp
        simp at hp
    simp [h1, h2]
  | true =>
    rw [List.isPrefixOf_iff_prefix] at hp
    obtain ⟨t, rfl⟩ := hp
    cases t with
    | nil =>
      rw [List.append_nil]
      have hs : entrySkip c.path c.path = some false := by
        unfold entrySkip
        simp
      rw [hs]
      simp
    | cons ch t =>
      have hlen : c.path.length < (c.path ++ ch :: t).length := by
        simp
      have hget : (c.path ++ ch :: t)[c.path.length]? = some ch := by
        rw [List.getElem?_append_right (Nat.le_refl _)]
        simp
      have hs : entrySkip (c.path ++ ch :: t) c.path
          = some (decide (ch ≠ '/')) := by
        unfold entrySkip
        rw [if_pos (List.length_pos.mpr h), if_pos hlen, hget]
        rfl
      have hne : ((c.path ++ ch :: t) == c.path) = false := by
        cases hq : (c.path ++ ch :: t) == c.path
        · rfl
        · rw [beq_iff_eq] at hq
          have hl := congrArg List.length hq
          simp at hl
      have hpa : (c.path ++ ['/']).isPrefixOf (c.path ++ ch :: t)
          = decide (ch = '/') := by
        cases hc : decide (ch = '/')
        · rw [decide_eq_false_iff_not] at hc
          cases hq : (c.path ++ ['/']).isPrefixOf (c.path ++ ch :: t)
          · rfl
          · rw [List.isPrefixOf_iff_prefix,
              List.prefix_append_right_inj, List.cons_prefix_cons] at hq
            exact (hc hq.1.symm).elim
        · rw [decide_eq_true_eq] at hc
          subst hc
          rw [List.isPrefixOf_iff_prefix, List.prefix_append_right_inj,
            List.cons_prefix_cons]
          exact ⟨rfl, List.nil_prefix⟩
      rw [hs, hne, hpa]
      cases hd : decide (ch = '/')
      · rw [decide_eq_false_iff_not] at hd
        simp [hd]
      · rw [decide_eq_true_eq] at hd
        subst hd
        simp


lemma callersLoop_seen (l : List Frame) :
    callersLoop l true =
      (l.takeWhile (fun f => !procFileSuffix.isSuffixOf f.file)).map frameStr := by
  induction l with
  | nil => rfl
  | cons f rest ih =>
    unfold callersLoop
    cases hf : procFileSuffix.isSuffixOf f.file
    · simp [hf, List.takeWhile_cons, ih]
    · simp [hf, List.takeWhile_cons]

lemma callersLoop_step (f : Frame) (rest : List Frame)
    (hf : traceFileSuffix.isSuffixOf f.file = false) :
    callersLoop (f :: rest) false = callersLoop rest false := by
  simp [callersLoop, hf]

lemma callersLoop_skip (pre l : List Frame)
    (h : ∀ f ∈ pre, traceFileSuffix.isSuffixOf f.file = false) :
    callersLoop (pre ++ l) false = callersLoop l false := by
  induction pre with
  | nil => rfl
  | cons f rest ih =>
    rw [List.cons_append,
      callersLoop_step f (rest ++ l) (h f (List.mem_cons_self f rest))]
    exact ih (fun g hg => h g (List.mem_cons_of_mem f hg))

lemma callersLoop_none (l : List Frame)
    (h : ∀ f ∈ l, traceFileSuffix.isSuffixOf f.file = false) :
    callersLoop l false = [] := by
  induction l with
  | nil => rfl
  | cons f rest ih =>
    rw [callersLoop_step f rest (h f (List.mem_cons_self f rest))]
    exact ih (fun g hg => h g (List.mem_cons_of_mem f hg))


lemma callersLoop_enter (f : Frame) (rest : List Frame)
    (hf : traceFileSuffix.isSuffixOf f.file = true) :
    callersLoop (f :: rest) false = callersLoop rest true := by
  simp [callersLoop, hf]

lemma callersLoop_collect (f : Frame) (rest : List Frame)
    (hf : procFileSuffix.isSuffixOf f.file = false) :
    callersLoop (f :: rest) true = frameStr f :: callersLoop rest true := by
  simp [callersLoop, hf]

/-- Claim C1, counterexample: the claim as stated fails for a registry entry
whose subscribed path is empty — `T` invokes it on path `"a"`, but the
specification formula (`path == subscribedPath` or `path` starts with
`subscribedPath ++ "/"`) admits no invocation there. -/
theorem T_invokes_spec_subset_cex :
    (T [⟨[], 0, 0⟩] ("a".toList) 0).1 ≠
      List.filter (specMatches ("a".toList) 0) [⟨[], 0, 0⟩] := by decide

/-- Claim C1, amended: for every registry whose entries all have non-empty
subscribed paths (the documented registration constraint), `T` invokes
exactly the entries with `priority >= entry.minPriority` and
(`path == entry.subscribedPath` or `path` starting with
`entry.subscribedPath ++ "/"`), and no others. -/
theorem T_invokes_spec_subset (ls : List Entry) (path : List Char)
    (prio : Priority) (h : ∀ c ∈ ls, c.path ≠ []) :
    (T ls path prio).1 = List.filter (specMatches path prio) ls := by
  rw [T_fst]
  exact List.filter_congr (fun c hc => tMatch_eq_specMatches path prio c (h c hc))

theorem T_invokes_spec_subset_witness :
    (T [⟨"net".toList, 0, 0⟩] ("net/http".toList) 0).1 =
      List.filter (specMatches ("net/http".toList) 0) [⟨"net".toList, 0, 0⟩] :=
  T_invokes_spec_subset [⟨"net".toList, 0, 0⟩] ("net/http".toList) 0 (by decide)

/-- Claim C2: the message is formatted at most once per call of `T` — exactly
once when some entry matches and zero times when none does — and on an empty
registry `T` returns at once with no invocation and no formatting. -/
theorem T_formats_at_most_once (ls : List Entry) (path : List Char)
    (prio : Priority) :
    (T ls path prio).2 = (if (T ls path prio).1.isEmpty then 0 else 1) ∧
      T [] path prio = ([], 0) := by
  constructor
  · cases ls with
    | nil => rfl
    | cons c cs =>
      show (emitLoop path prio (c :: cs) true).2 = _
      rw [emitLoop_snd_true]
      rfl
  · rfl

/-- Claim C3: the entries invoked by `T` are exactly the matching ones taken
in registry order — the invocation list is the order-preserving filter of the
registry, hence a sublist of it, never reordered by priority or by path
specificity. -/
theorem T_invokes_in_registration_order (ls : List Entry) (path : List Char)
    (prio : Priority) :
    (T ls path prio).1 = List.filter (tMatch path prio) ls ∧
      ((T ls path prio).1).Sublist ls :=
  ⟨T_fst ls path prio, (T_fst ls path prio) ▸ List.filter_sublist ls⟩

/-- Claim C4: an emission on `"network"` never invokes a listener subscribed
to `"net"`, whatever the two priorities are: the subscribed path is a string
prefix of the emitted path, but the next byte is not the separator. -/
theorem T_prefix_boundary_network (prio cprio : Priority) (n : Nat) :
    (T [⟨"net".toList, cprio, n⟩] ("network".toList) prio).1 = [] := by
  have hs : tMatch ("network".toList) prio ⟨"net".toList, cprio, n⟩ = false := by
    have he : entrySkip ("network".toList) ("net".toList) = some true := by rfl
    unfold tMatch
    rw [he]
    simp
  rw [T_fst, List.filter_cons, hs]
  simp

/-- Claim C5: with listener A on `"net"` at `PrioInfo` and listener B on
`"net/http"` at `PrioDebug`, emitting on `"net/http"` at `PrioInfo` invokes
A then B in that order, and emitting on `"net"` at `PrioDebug` invokes no
listener at all. -/
theorem T_example_scenario :
    (T [⟨"net".toList, PrioInfo, 0⟩, ⟨"net/http".toList, PrioDebug, 1⟩]
        ("net/http".toList) PrioInfo).1 =
      [⟨"net".toList, PrioInfo, 0⟩, ⟨"net/http".toList, PrioDebug, 1⟩] ∧
      (T [⟨"net".toList, PrioInfo, 0⟩, ⟨"net/http".toList, PrioDebug, 1⟩]
        ("net".toList) PrioDebug).1 = [] := by
  decide

/-- Claim C6: the five named priority levels are strictly ordered
`PrioVerbose < PrioDebug < PrioInfo < PrioError < PrioCritical` (hence
pairwise distinct), with `PrioDebug = -1000` and `PrioInfo = 0`, and
`PrioAll` is the least `int32` value, so `PrioAll ≤ p` for every
representable priority `p`. -/
theorem priority_levels_ordered (p : Priority) (h : isInt32 p) :
    PrioVerbose < PrioDebug ∧ PrioDebug < PrioInfo ∧ PrioInfo < PrioError ∧
      PrioError < PrioCritical ∧ PrioDebug = -1000 ∧ PrioInfo = 0 ∧
      PrioAll = minInt32 ∧ PrioAll ≤ p :=
  ⟨by decide, by decide, by decide, by decide, rfl, rfl, rfl, h.1⟩

theorem priority_levels_ordered_witness :
    PrioVerbose < PrioDebug ∧ PrioDebug < PrioInfo ∧ PrioInfo < PrioError ∧
      PrioError < PrioCritical ∧ PrioDebug = -1000 ∧ PrioInfo = 0 ∧
      PrioAll = minInt32 ∧ PrioAll ≤ 0 :=
  priority_levels_ordered 0 (by decide)

/-- Claim C7: when the walked caller chain contains the frame of the
emission entry point (the `trace.go` frame), followed by its immediate
caller which is not the runtime startup frame, `Callers` returns a non-empty
sequence whose first element is that immediate caller's `"file:line"`
string, the remaining frames being collected innermost-first until the
runtime startup frame or the end of the stack. -/
theorem Callers_within_listener (pre post : List Frame) (tF g : Frame)
    (hpre : ∀ f ∈ pre, traceFileSuffix.isSuffixOf f.file = false)
    (htF : traceFileSuffix.isSuffixOf tF.file = true)
    (hg : procFileSuffix.isSuffixOf g.file = false) :
    Callers (pre ++ tF :: g :: post) =
      frameStr g ::
        (post.takeWhile (fun f => !procFileSuffix.isSuffixOf f.file)).map
          frameStr ∧
      Callers (pre ++ tF :: g :: post) ≠ [] := by
  have hmain : Callers (pre ++ tF :: g :: post) =
      frameStr g ::
        (post.takeWhile (fun f => !procFileSuffix.isSuffixOf f.file)).map
          frameStr := by
    unfold Callers
    rw [callersLoop_skip pre _ hpre, callersLoop_enter tF _ htF,
      callersLoop_collect g post hg, callersLoop_seen post]
  exact ⟨hmain, by rw [hmain]; exact List.cons_ne_nil _ _⟩

theorem Callers_within_listener_witness :
    Callers ([] ++ ⟨traceFileSuffix, 118⟩ :: ⟨"main.go".toList, 7⟩ :: []) =
      frameStr ⟨"main.go".toList, 7⟩ ::
        (([] : List Frame).takeWhile
          (fun f => !procFileSuffix.isSuffixOf f.file)).map frameStr ∧
      Callers ([] ++ ⟨traceFileSuffix, 118⟩ :: ⟨"main.go".toList, 7⟩ :: []) ≠
        [] :=
  Callers_within_listener [] [] ⟨traceFileSuffix, 118⟩ ⟨"main.go".toList, 7⟩
    (by simp) (by decide) (by decide)

/-- Claim C8: when no frame of the walked caller chain carries the emission
entry point's source-location suffix, `Callers` returns the empty sequence
(and, being a total function, raises no error). -/
theorem Callers_outside_listener (stack : List Frame)
    (h : ∀ f ∈ stack, traceFileSuffix.isSuffixOf f.file = false) :
    Callers stack = [] :=
  callersLoop_none stack h

theorem Callers_outside_listener_witness :
    Callers [⟨"main.go".toList, 7⟩] = [] :=
  Callers_outside_listener [⟨"main.go".toList, 7⟩] (by decide)

/-- Claim C9: the byte access `path[l]` of the boundary check is always in
bounds — `entrySkip` never takes its out-of-bounds (`none`) branch, for any
emitted path and any subscribed path — so `T` never faults on indexing. -/
theorem entrySkip_always_inbounds (path cpath : List Char) :
    (entrySkip path cpath).isSome = true := by
  unfold entrySkip
  split
  · split
    · rename_i hlt
      rw [List.getElem?_eq_getElem hlt]
      rfl
    · rfl
  · rfl

/-- Claim C10: a registered entry whose subscribed path is empty receives
every emission that passes its priority filter, whatever the emitted path:
the empty list is a prefix of every path and the boundary check is skipped
when the subscribed path has length zero. -/
theorem empty_path_entry_matches_all (ls : List Entry) (path : List Char)
    (prio : Priority) (c : Entry) (hmem : c ∈ ls) (hpath : c.path = [])
    (hprio : c.prio ≤ prio) : c ∈ (T ls path prio).1 := by
  rw [T_fst]
  refine List.mem_filter.2 ⟨hmem, ?_⟩
  simp [tMatch, entrySkip, hpath, hprio]

theorem empty_path_entry_matches_all_witness :
    (⟨[], 0, 5⟩ : Entry) ∈ (T [⟨[], 0, 5⟩] ("x".toList) 0).1 :=
  empty_path_entry_matches_all [⟨[], 0, 5⟩] ("x".toList) 0 ⟨[], 0, 5⟩
    (by decide) rfl (by decide)

end Trace
